import Mathlib

/-!
# Verification of the Projexts shortcut manager (src/projexts/src/main.rs)

A shallow embedding of the shortcut store and command-resolution logic of the
`projexts` CLI tool, together with proofs of its specified properties.

Modelling conventions:
* The backing configuration file is modelled as a `Store`: an optional JSON
  document (`none` = the file does not exist) plus a counter of how many times
  `save_shortcuts` wrote it.
* serde_json's text layer is external; file contents are modelled at the JSON
  AST level.  The serde-derived `Serialize`/`Deserialize` instances for the
  `Shortcut` struct are modelled by `encodeShortcut`/`decodeShortcut`.
* Filesystem queries (`fs::canonicalize`, `Path::is_dir`, `Path::is_file`,
  `Path::exists`) are an oracle `FS`; `Path::is_absolute` and `Path::parent`
  are modelled for Unix paths following `std::path` semantics.
* Spawned processes are recorded as `SpawnCall` values (program + argument
  list) rather than executed; spawning itself is assumed to succeed.
-/

/-- JSON documents, at the AST level (the fragment used by this program). -/
inductive Json where
  | str : String → Json
  | arr : List Json → Json
  | obj : List (String × Json) → Json

/-- The `Shortcut` struct of main.rs: a project name and its run command. -/
structure Shortcut where
  project_name : String
  run_command : List String
deriving Repr, DecidableEq

/-- Filesystem oracle: the results of the filesystem queries the program makes.
`canonicalize s = some p` models `fs::canonicalize` succeeding with `p`
(the path resolves to an existing filesystem entry); `none` models failure. -/
structure FS where
  canonicalize : String → Option String
  is_dir : String → Bool
  is_file : String → Bool
  pathExists : String → Bool

/-- The target operating system selected by the `cfg!(target_os = ...)` tests. -/
inductive OS where
  | windows
  | macos
  | linux
  | other
deriving DecidableEq, Repr

/-- The `io::Error` values the embedded functions produce.  `invalidInput`
models `io::ErrorKind::InvalidInput`, `notFound` models `NotFound`,
`unsupported` models `Unsupported`; `parseError` models the serde_json
deserialization error converted into an `io::Error`; `fileMissing` models the
`remove_file` error on an absent file. -/
inductive IoErr where
  | invalidInput : String → IoErr
  | notFound : String → IoErr
  | unsupported : String → IoErr
  | parseError : IoErr
  | fileMissing : IoErr
deriving DecidableEq, Repr

/-- A recorded process invocation: `Command::new(program).args(args)`. -/
structure SpawnCall where
  program : String
  args : List String
deriving DecidableEq, Repr

/-- The persistent state: the configuration file's contents (`none` when the
file does not exist) and the number of `save_shortcuts` writes performed. -/
structure Store where
  file : Option Json
  saves : Nat

/-- Models the serde-derived `Serialize` for `Shortcut`: a JSON object with
fields `project_name` and `run_command`. -/
def encodeShortcut (s : Shortcut) : Json :=
  Json.obj [("project_name", Json.str s.project_name),
            ("run_command", Json.arr (s.run_command.map Json.str))]

/-- Serialization of a whole collection: a JSON array in storage order. -/
def encodeShortcuts (l : List Shortcut) : Json :=
  Json.arr (l.map encodeShortcut)

/-- Decode a JSON value as a string. -/
def decodeString : Json → Option String
  | Json.str s => some s
  | _ => none

/-- Decode a list of JSON values as strings, element by element. -/
def decodeStrings : List Json → Option (List String)
  | [] => some []
  | j :: rest => do
    let s ← decodeString j
    let r ← decodeStrings rest
    pure (s :: r)

/-- Decode a JSON value as an array of strings (a `Vec<String>`). -/
def decodeStringList : Json → Option (List String)
  | Json.arr xs => decodeStrings xs
  | _ => none

/-- Look up a field in a JSON object's field list (first occurrence). -/
def jsonLookup (fields : List (String × Json)) (key : String) : Option Json :=
  (fields.find? (fun p => p.1 == key)).map (fun p => p.2)

/-- Models the serde-derived `Deserialize` for `Shortcut`: requires an object
with a string field `project_name` and a string-array field `run_command`. -/
def decodeShortcut : Json → Option Shortcut
  | Json.obj fields => do
    let n ← jsonLookup fields "project_name" >>= decodeString
    let c ← jsonLookup fields "run_command" >>= decodeStringList
    pure ⟨n, c⟩
  | _ => none

/-- Decode a list of JSON values as shortcuts, element by element. -/
def decodeShortcutList : List Json → Option (List Shortcut)
  | [] => some []
  | j :: rest => do
    let s ← decodeShortcut j
    let r ← decodeShortcutList rest
    pure (s :: r)

/-- Deserialization of a whole collection (`Vec<Shortcut>` from JSON). -/
def decodeShortcuts : Json → Option (List Shortcut)
  | Json.arr xs => decodeShortcutList xs
  | _ => none

/-- `save_shortcuts` of main.rs: serializes the collection and overwrites the
configuration file with it. -/
def save_shortcuts (shortcuts : List Shortcut) (st : Store) : Store :=
  { file := some (encodeShortcuts shortcuts), saves := st.saves + 1 }

/-- `load_shortcuts` of main.rs: if the configuration file does not exist,
create it with contents `[]`; then read and deserialize it.  Returns the new
state of the file and the decoded collection (`none` on a malformed file). -/
def load_shortcuts (st : Store) : Store × Option (List Shortcut) :=
  match st.file with
  | none => ({ st with file := some (Json.arr []) },
             decodeShortcuts (Json.arr []))
  | some j => (st, decodeShortcuts j)

/-- `reset_shortcuts` of main.rs: `fs::remove_file` on the configuration file;
this errors when the file does not exist. -/
def reset_shortcuts (st : Store) : Store × Except IoErr Unit :=
  match st.file with
  | none => (st, Except.error IoErr.fileMissing)
  | some _ => ({ st with file := none }, Except.ok ())

/-- A component of a Unix path, following `std::path::Component`
(no prefixes on Unix). -/
inductive PathComponent where
  | rootDir
  | curDir
  | parentDir
  | normal : String → PathComponent
deriving DecidableEq, Repr

/-- Split a character list at every `/`, keeping empty chunks
(the character-level equivalent of splitting a path string on `/`). -/
def splitSlashAux : List Char → List Char → List String
  | [], acc => [String.mk acc.reverse]
  | c :: rest, acc =>
    if c = '/' then String.mk acc.reverse :: splitSlashAux rest []
    else splitSlashAux rest (c :: acc)

/-- Split a path string at every `/` (like splitting on the separator,
written structurally so it computes). -/
def splitSlash (s : String) : List String :=
  splitSlashAux s.data []

/-- Whether a Unix path string starts with the separator `/`. -/
def startsWithSlash (s : String) : Bool :=
  match s.data with
  | [] => false
  | c :: _ => c = '/'

/-- Parse the chunks of a path body (split on `/`) into components:
empty chunks and `.` chunks are normalized away, `..` is `parentDir`.
Models `std::path::Components` after the leading root / leading `.`. -/
def parseChunks (chunks : List String) : List PathComponent :=
  chunks.filterMap fun c =>
    if c = "" ∨ c = "." then none
    else if c = ".." then some PathComponent.parentDir
    else some (PathComponent.normal c)

/-- The components of a relative path's chunks: a leading `.` chunk is kept
as `curDir`; the rest is parsed by `parseChunks`. -/
def relComponents : List String → List PathComponent
  | [] => []
  | c :: rest =>
    if c = "." then PathComponent.curDir :: parseChunks rest
    else parseChunks (c :: rest)

/-- The components of a Unix path string, following `Path::components`:
a leading `/` is `rootDir`; a leading `.` chunk of a relative path is kept
as `curDir`; all other `.` and empty chunks are normalized away. -/
def pathComponents (s : String) : List PathComponent :=
  if startsWithSlash s then
    PathComponent.rootDir :: parseChunks (splitSlash s)
  else
    relComponents (splitSlash s)

/-- Render a component as its textual form (`rootDir` is handled by
`renderComponents`). -/
def componentText : PathComponent → String
  | PathComponent.rootDir => ""
  | PathComponent.curDir => "."
  | PathComponent.parentDir => ".."
  | PathComponent.normal s => s

/-- Join strings with the separator `/` (written structurally so it
computes). -/
def joinSlash : List String → String
  | [] => ""
  | [x] => x
  | x :: rest => x ++ "/" ++ joinSlash rest

/-- Render a component list back to a path string, following
`Components::as_path` for Unix paths. -/
def renderComponents : List PathComponent → String
  | PathComponent.rootDir :: rest =>
      "/" ++ joinSlash (rest.map componentText)
  | cs => joinSlash (cs.map componentText)

/-- `Path::parent` for Unix paths: drop the last component; `none` when the
path is empty or consists only of the root. -/
def pathParent (s : String) : Option String :=
  match (pathComponents s).getLast? with
  | none => none
  | some PathComponent.rootDir => none
  | some _ => some (renderComponents (pathComponents s).dropLast)

/-- `Path::is_absolute` for Unix paths: the path has a root. -/
def isAbsolutePath (s : String) : Bool :=
  startsWithSlash s

/-- The per-token normalization of `add_shortcut` (main.rs lines 111-123):
an absolute path is kept verbatim; otherwise, if `fs::canonicalize` succeeds
the token is replaced by the canonical absolute path; otherwise the token is
kept unchanged. -/
def normalize_token (fs : FS) (cmd : String) : String :=
  if isAbsolutePath cmd then cmd
  else
    match fs.canonicalize cmd with
    | some abs_path => abs_path
    | none => cmd

/-- The whole-command normalization of `add_shortcut`: the per-token rule
mapped over the command. -/
def normalize_command (fs : FS) (command : List String) : List String :=
  command.map (normalize_token fs)

/-- `add_shortcut` of main.rs: reject an empty command with an
`InvalidInput` error before touching the store; otherwise normalize the
command tokens, load the collection, append the new shortcut at the end and
save. -/
def add_shortcut (fs : FS) (name : String) (command : List String)
    (st : Store) : Store × Except IoErr Unit :=
  if command.isEmpty then
    (st, Except.error (IoErr.invalidInput "Command cannot be empty"))
  else
    let absolute_command := normalize_command fs command
    let p := load_shortcuts st
    match p.2 with
    | none => (p.1, Except.error IoErr.parseError)
    | some shortcuts =>
        (save_shortcuts
          (shortcuts ++ [⟨name, absolute_command⟩]) p.1, Except.ok ())

/-- `remove_shortcut` of main.rs: retain only the shortcuts whose name
differs; save only when the length changed (something was removed); always
`Ok` apart from load errors. -/
def remove_shortcut (name : String) (st : Store) : Store × Except IoErr Unit :=
  let p := load_shortcuts st
  match p.2 with
  | none => (p.1, Except.error IoErr.parseError)
  | some shortcuts =>
    let retained := shortcuts.filter (fun s => s.project_name != name)
    if retained.length == shortcuts.length then
      (p.1, Except.ok ())
    else
      (save_shortcuts retained p.1, Except.ok ())

/-- The in-place mutation of `update_shortcut`: replace the `run_command` of
the first entry matching `name` when a new command is given; later entries
and non-matching entries are untouched. -/
def updateFirst (l : List Shortcut) (name : String)
    (new_command : Option (List String)) : List Shortcut :=
  match l with
  | [] => []
  | s :: rest =>
    if s.project_name == name then
      (match new_command with
       | some c => { s with run_command := c }
       | none => s) :: rest
    else s :: updateFirst rest name new_command

/-- `update_shortcut` of main.rs: find the first entry with the given name;
when found, overwrite its command with the given one (verbatim, no
normalization) and save; when not found, print a message and return `Ok`
without saving. -/
def update_shortcut (name : String) (new_command : Option (List String))
    (st : Store) : Store × Except IoErr Unit :=
  let p := load_shortcuts st
  match p.2 with
  | none => (p.1, Except.error IoErr.parseError)
  | some shortcuts =>
    if (shortcuts.find? (fun s => s.project_name == name)).isSome then
      (save_shortcuts (updateFirst shortcuts name new_command) p.1,
       Except.ok ())
    else
      (p.1, Except.ok ())

/-- The platform file-opener selection (`explorer` / `open` / `xdg-open`);
`none` for an unsupported operating system. -/
def open_command : OS → Option String
  | OS.windows => some "explorer"
  | OS.macos => some "open"
  | OS.linux => some "xdg-open"
  | OS.other => none

/-- `run_shortcut` of main.rs: find the first entry with the given name;
split its command into program and stored arguments; spawn the program with
the stored arguments followed by the extra arguments.  A missing shortcut or
an empty command prints a message and returns `Ok` with nothing spawned. -/
def run_shortcut (name : String) (extra_args : List String) (st : Store) :
    Store × List SpawnCall × Except IoErr Unit :=
  let p := load_shortcuts st
  match p.2 with
  | none => (p.1, [], Except.error IoErr.parseError)
  | some shortcuts =>
    match shortcuts.find? (fun s => s.project_name == name) with
    | some shortcut =>
      match shortcut.run_command with
      | [] => (p.1, [], Except.ok ())
      | command :: args =>
          (p.1, [⟨command, args ++ extra_args⟩], Except.ok ())
    | none => (p.1, [], Except.ok ())

/-- `open_project_folder` of main.rs: take the first command token; use it
directly when it is a directory, else its parent; error with `NotFound` when
it has no parent; then spawn the platform opener on that directory (error
with `Unsupported` on an unknown platform).  A missing shortcut or an empty
command prints a message and returns `Ok`. -/
def open_project_folder (fs : FS) (os : OS) (name : String) (st : Store) :
    Store × List SpawnCall × Except IoErr Unit :=
  let p := load_shortcuts st
  match p.2 with
  | none => (p.1, [], Except.error IoErr.parseError)
  | some shortcuts =>
    match shortcuts.find? (fun s => s.project_name == name) with
    | some shortcut =>
      match shortcut.run_command.head? with
      | some first_command =>
        let dirResult : Except IoErr String :=
          if fs.is_dir first_command then Except.ok first_command
          else
            match pathParent first_command with
            | some parent => Except.ok parent
            | none =>
                Except.error (IoErr.notFound
                  "Unable to determine directory from run command")
        match dirResult with
        | Except.error e => (p.1, [], Except.error e)
        | Except.ok dir =>
          match open_command os with
          | none =>
              (p.1, [],
               Except.error (IoErr.unsupported "Unsupported operating system"))
          | some oc => (p.1, [⟨oc, [dir]⟩], Except.ok ())
      | none => (p.1, [], Except.ok ())
    | none => (p.1, [], Except.ok ())

/-- `open_file_from_shortcut` of main.rs: select the platform opener (error
with `Unsupported` on an unknown platform); then open every command token
that exists and is a regular file, skipping the others with a message.  A
missing shortcut prints a message and returns `Ok`. -/
def open_file_from_shortcut (fs : FS) (os : OS) (name : String) (st : Store) :
    Store × List SpawnCall × Except IoErr Unit :=
  let p := load_shortcuts st
  match p.2 with
  | none => (p.1, [], Except.error IoErr.parseError)
  | some shortcuts =>
    match shortcuts.find? (fun s => s.project_name == name) with
    | some shortcut =>
      match open_command os with
      | none =>
          (p.1, [],
           Except.error (IoErr.unsupported "Unsupported operating system"))
      | some oc =>
          (p.1,
           (shortcut.run_command.filter
             (fun fp => fs.pathExists fp && fs.is_file fp)).map
             (fun fp => ⟨oc, [fp]⟩),
           Except.ok ())
    | none => (p.1, [], Except.ok ())

/-- Models `std::env::set_current_dir`: the call succeeds exactly when the
path names an existing directory; the empty path always fails (POSIX `chdir`
returns ENOENT for an empty pathname on every platform, before any
filesystem lookup). -/
def set_current_dir (fs : FS) (dir : String) : Except IoErr Unit :=
  if dir = "" then Except.error (IoErr.notFound "set_current_dir")
  else if fs.is_dir dir then Except.ok ()
  else Except.error (IoErr.notFound "set_current_dir")

/-- `git_push` of main.rs: resolve a working directory from the first command
token exactly as `open_project_folder` does; change the process working
directory to it with `std::env::set_current_dir(dir)?`, propagating its
error (the successful change is recorded as the second result component);
then run `git add .`, `git commit -m msg`, `git push` in sequence.  A
missing shortcut or an empty command prints a message and returns `Ok`. -/
def git_push (fs : FS) (name commit_message : String) (st : Store) :
    Store × Option String × List SpawnCall × Except IoErr Unit :=
  let p := load_shortcuts st
  match p.2 with
  | none => (p.1, none, [], Except.error IoErr.parseError)
  | some shortcuts =>
    match shortcuts.find? (fun s => s.project_name == name) with
    | some shortcut =>
      match shortcut.run_command.head? with
      | some first_command =>
        let dirResult : Except IoErr String :=
          if fs.is_dir first_command then Except.ok first_command
          else
            match pathParent first_command with
            | some parent => Except.ok parent
            | none =>
                Except.error (IoErr.notFound
                  "Unable to determine directory from run command")
        match dirResult with
        | Except.error e => (p.1, none, [], Except.error e)
        | Except.ok dir =>
          match set_current_dir fs dir with
          | Except.error e => (p.1, none, [], Except.error e)
          | Except.ok _ =>
              (p.1, some dir,
               [⟨"git", ["add", "."]⟩,
                ⟨"git", ["commit", "-m", commit_message]⟩,
                ⟨"git", ["push"]⟩],
               Except.ok ())
      | none => (p.1, none, [], Except.ok ())
    | none => (p.1, none, [], Except.ok ())

/-- A filesystem oracle on which no path exists, no path is a directory or
file, and no path canonicalizes. -/
def emptyFS : FS :=
  { canonicalize := fun _ => none
    is_dir := fun _ => false
    is_file := fun _ => false
    pathExists := fun _ => false }

/-- A filesystem oracle on which the single relative path `relscript`
canonicalizes to `/home/user/relscript` and nothing else resolves. -/
def relFS : FS :=
  { canonicalize := fun s =>
      if s = "relscript" then some "/home/user/relscript" else none
    is_dir := fun _ => false
    is_file := fun _ => false
    pathExists := fun _ => false }

/-- A store whose configuration file holds the serialized collection `l` and
on which no save has happened yet. -/
def storeOf (l : List Shortcut) : Store :=
  { file := some (encodeShortcuts l), saves := 0 }

theorem decodeStrings_map_str (xs : List String) :
    decodeStrings (xs.map Json.str) = some xs := by
  induction xs with
  | nil => rfl
  | cons x xs ih => simp [decodeStrings, decodeString, ih]

theorem decodeShortcut_encodeShortcut (s : Shortcut) :
    decodeShortcut (encodeShortcut s) = some s := by
  simp [decodeShortcut, encodeShortcut, jsonLookup, List.find?, decodeString,
        decodeStringList, decodeStrings_map_str]

theorem decodeShortcutList_map_encode (l : List Shortcut) :
    decodeShortcutList (l.map encodeShortcut) = some l := by
  induction l with
  | nil => rfl
  | cons s l ih => simp [decodeShortcutList, decodeShortcut_encodeShortcut, ih]

theorem decodeShortcuts_encodeShortcuts (l : List Shortcut) :
    decodeShortcuts (encodeShortcuts l) = some l := by
  simp [decodeShortcuts, encodeShortcuts, decodeShortcutList_map_encode]

/-- C1: Round-trip persistence: saving any collection and then loading
returns exactly that collection (same entries, same order). -/
theorem save_load_round_trip (shortcuts : List Shortcut) (st : Store) :
    (load_shortcuts (save_shortcuts shortcuts st)).2 = some shortcuts := by
  simp [load_shortcuts, save_shortcuts, decodeShortcuts_encodeShortcuts]

theorem load_storeOf (l : List Shortcut) :
    load_shortcuts (storeOf l) = (storeOf l, some l) := by
  simp [load_shortcuts, storeOf, decodeShortcuts_encodeShortcuts]

theorem load_shortcuts_saves (st : Store) :
    (load_shortcuts st).1.saves = st.saves := by
  cases h : st.file <;> simp [load_shortcuts, h]

theorem load_shortcuts_idem (st : Store) :
    load_shortcuts ((load_shortcuts st).1) = load_shortcuts st := by
  cases h : st.file <;> simp [load_shortcuts, h]

theorem find?_name_eq_none {l : List Shortcut} {name : String}
    (h : ∀ s ∈ l, s.project_name ≠ name) :
    l.find? (fun s => s.project_name == name) = none := by
  refine List.find?_eq_none.mpr fun s hs => ?_
  simp only [beq_iff_eq]
  exact h s hs

theorem find?_name_append_cons {l1 l2 : List Shortcut} {s : Shortcut}
    {name : String} (h2 : ∀ t ∈ l1, t.project_name ≠ name)
    (h3 : s.project_name = name) :
    (l1 ++ s :: l2).find? (fun t => t.project_name == name) = some s := by
  induction l1 with
  | nil =>
    rw [List.nil_append]
    exact List.find?_cons_of_pos _ (by simp [h3])
  | cons t l1 ih =>
    have ht : t.project_name ≠ name := h2 t (List.mem_cons_self t l1)
    rw [List.cons_append, List.find?_cons_of_neg _ (by simp [ht])]
    exact ih fun u hu => h2 u (List.mem_cons_of_mem t hu)

theorem updateFirst_append_cons {l1 l2 : List Shortcut} {s : Shortcut}
    {name : String} (c : List String)
    (h2 : ∀ t ∈ l1, t.project_name ≠ name) (h3 : s.project_name = name) :
    updateFirst (l1 ++ s :: l2) name (some c) =
      l1 ++ { s with run_command := c } :: l2 := by
  induction l1 with
  | nil => simp [updateFirst, h3]
  | cons t l1 ih =>
    have ht : t.project_name ≠ name := h2 t (List.mem_cons_self t l1)
    simp only [List.cons_append, updateFirst, beq_iff_eq, ht, if_false]
    exact congrArg _ (ih fun u hu => h2 u (List.mem_cons_of_mem t hu))

theorem length_filter_add_length_filter_not {α : Type} (p : α → Bool)
    (l : List α) :
    (l.filter p).length + (l.filter (fun a => !(p a))).length = l.length := by
  induction l with
  | nil => rfl
  | cons a l ih =>
    by_cases h : p a <;> simp [List.filter_cons, h] <;> omega

theorem mem_of_getLast?_eq {α : Type} {l : List α} {a : α}
    (h : l.getLast? = some a) : a ∈ l := by
  induction l with
  | nil => simp [List.getLast?] at h
  | cons b bs ih =>
    cases bs with
    | nil =>
      simp at h
      simp [h]
    | cons c cs =>
      rw [List.getLast?_cons_cons] at h
      exact List.mem_cons_of_mem _ (ih h)

theorem rootDir_not_mem_parseChunks (chunks : List String) :
    PathComponent.rootDir ∉ parseChunks chunks := by
  intro h
  simp only [parseChunks, List.mem_filterMap] at h
  obtain ⟨c, _, hc⟩ := h
  split_ifs at hc <;> simp_all

theorem rootDir_not_mem_relComponents (chunks : List String) :
    PathComponent.rootDir ∉ relComponents chunks := by
  intro h
  cases chunks with
  | nil => simp [relComponents] at h
  | cons c rest =>
    simp only [relComponents] at h
    by_cases hc : c = "."
    · rw [if_pos hc] at h
      rcases List.mem_cons.mp h with h1 | h1
      · exact PathComponent.noConfusion h1
      · exact rootDir_not_mem_parseChunks rest h1
    · rw [if_neg hc] at h
      exact rootDir_not_mem_parseChunks (c :: rest) h

theorem rootDir_head_of_mem_pathComponents {s : String}
    (h : PathComponent.rootDir ∈ pathComponents s) :
    startsWithSlash s = true := by
  by_contra hs
  rw [Bool.not_eq_true] at hs
  unfold pathComponents at h
  rw [hs] at h
  simp only [Bool.false_eq_true, if_false] at h
  exact rootDir_not_mem_relComponents (splitSlash s) h

theorem pathComponents_rootDir_last {s : String}
    (h : (pathComponents s).getLast? = some PathComponent.rootDir) :
    pathComponents s = [PathComponent.rootDir] := by
  have hs : startsWithSlash s = true :=
    rootDir_head_of_mem_pathComponents (mem_of_getLast?_eq h)
  unfold pathComponents at h ⊢
  rw [if_pos hs] at h ⊢
  cases hb : parseChunks (splitSlash s) with
  | nil => rfl
  | cons b bs =>
    exfalso
    rw [hb, List.getLast?_cons_cons] at h
    refine rootDir_not_mem_parseChunks (splitSlash s) ?_
    rw [hb]
    exact mem_of_getLast?_eq h

theorem pathParent_eq_none_iff (s : String) :
    pathParent s = none ↔
      (pathComponents s = [] ∨ pathComponents s = [PathComponent.rootDir]) := by
  constructor
  · intro h
    cases hl : (pathComponents s).getLast? with
    | none => exact Or.inl (List.getLast?_eq_none_iff.mp hl)
    | some c =>
      cases c with
      | rootDir => exact Or.inr (pathComponents_rootDir_last hl)
      | curDir => simp [pathParent, hl] at h
      | parentDir => simp [pathParent, hl] at h
      | normal t => simp [pathParent, hl] at h
  · intro h
    rcases h with h | h <;> simp [pathParent, h]

theorem pathParent_single_normal {s t : String}
    (h : pathComponents s = [PathComponent.normal t]) :
    pathParent s = some "" := by
  unfold pathParent
  rw [h]
  rfl

/-- C2: Run argument composition: for every shortcut whose stored command is
non-empty and every sequence of extra arguments, `run_shortcut` spawns the
first command element as the program, with the remaining stored elements
followed by the extra arguments as the argument list, in exactly that
order. -/
theorem run_args_composition (name : String) (extra_args : List String)
    (st : Store) (l : List Shortcut) (sc : Shortcut)
    (command : String) (args : List String)
    (h1 : (load_shortcuts st).2 = some l)
    (h2 : l.find? (fun s => s.project_name == name) = some sc)
    (h3 : sc.run_command = command :: args) :
    run_shortcut name extra_args st =
      ((load_shortcuts st).1, [⟨command, args ++ extra_args⟩],
       Except.ok ()) := by
  simp [run_shortcut, h1, h2, h3]

theorem run_args_composition_witness :
    run_shortcut "p" ["x"] (storeOf [⟨"p", ["echo", "hi"]⟩]) =
      (storeOf [⟨"p", ["echo", "hi"]⟩], [⟨"echo", ["hi", "x"]⟩],
       Except.ok ()) :=
  run_args_composition "p" ["x"] (storeOf [⟨"p", ["echo", "hi"]⟩])
    [⟨"p", ["echo", "hi"]⟩] ⟨"p", ["echo", "hi"]⟩ "echo" ["hi"]
    rfl rfl rfl

/-- C3: code behavior at the failing input: for a shortcut whose stored
command is empty, `run_shortcut` prints a message and returns `Ok(())` with
nothing spawned, contradicting its own rustdoc, which says an error is
returned when the `run_command` is empty. -/
theorem run_empty_command_behavior :
    run_shortcut "proj" [] (storeOf [⟨"proj", []⟩]) =
      (storeOf [⟨"proj", []⟩], [], Except.ok ()) := rfl

/-- C4: Path normalization token rule: normalization preserves the token
count and order, keeps an absolute path verbatim, replaces a relative path
that canonicalizes by its canonical absolute form, and keeps any other token
unchanged. -/
theorem normalization_token_rule (fs : FS) (command : List String)
    (t : String) (i : Nat) :
    (normalize_command fs command).length = command.length ∧
    (normalize_command fs command)[i]? =
      (command[i]?).map (normalize_token fs) ∧
    (isAbsolutePath t = true → normalize_token fs t = t) ∧
    (isAbsolutePath t = false → ∀ p, fs.canonicalize t = some p →
      normalize_token fs t = p) ∧
    (isAbsolutePath t = false → fs.canonicalize t = none →
      normalize_token fs t = t) := by
  refine ⟨by simp [normalize_command],
    by simp [normalize_command, List.getElem?_map], ?_, ?_, ?_⟩
  · intro h
    simp [normalize_token, h]
  · intro h p hp
    simp [normalize_token, h, hp]
  · intro h hp
    simp [normalize_token, h, hp]

theorem normalization_token_rule_witness :
    (normalize_command relFS ["/bin/ls", "relscript", "npm"]).length = 3 ∧
    normalize_token relFS "/bin/ls" = "/bin/ls" ∧
    normalize_token relFS "relscript" = "/home/user/relscript" ∧
    normalize_token relFS "npm" = "npm" := by
  refine ⟨?_, ?_, ?_, ?_⟩
  · exact (normalization_token_rule relFS ["/bin/ls", "relscript", "npm"]
      "" 0).1
  · exact (normalization_token_rule relFS [] "/bin/ls" 0).2.2.1 rfl
  · exact (normalization_token_rule relFS [] "relscript" 0).2.2.2.1 rfl
      "/home/user/relscript" rfl
  · exact (normalization_token_rule relFS [] "npm" 0).2.2.2.2 rfl rfl

/-- C5 counterexample: `update_shortcut` stores the raw new command, not its
normalized form: on a filesystem where `relscript` canonicalizes to
`/home/user/relscript`, updating stores `["relscript"]` although the
normalized form would be `["/home/user/relscript"]`. -/
theorem update_no_normalization_counterexample :
    update_shortcut "p" (some ["relscript"]) (storeOf [⟨"p", ["/bin/old"]⟩]) =
      ({ file := some (encodeShortcuts [⟨"p", ["relscript"]⟩]), saves := 1 },
       Except.ok ()) ∧
    normalize_command relFS ["relscript"] = ["/home/user/relscript"] ∧
    (["relscript"] : List String) ≠ ["/home/user/relscript"] :=
  ⟨rfl, rfl, by decide⟩

/-- C5 amended: for every existing shortcut name and new command,
`update_shortcut` replaces the first matching entry's command with the new
command verbatim (no normalization is applied) and saves the result. -/
theorem update_stores_raw_command (name : String) (c : List String)
    (l1 l2 : List Shortcut) (s : Shortcut) (st : Store)
    (h1 : (load_shortcuts st).2 = some (l1 ++ s :: l2))
    (h2 : ∀ t ∈ l1, t.project_name ≠ name)
    (h3 : s.project_name = name) :
    update_shortcut name (some c) st =
      (save_shortcuts (l1 ++ { s with run_command := c } :: l2)
        (load_shortcuts st).1, Except.ok ()) := by
  have hf := @find?_name_append_cons l1 l2 s name h2 h3
  have hu := @updateFirst_append_cons l1 l2 s name c h2 h3
  simp [update_shortcut, h1, hf, hu]

theorem update_stores_raw_command_witness :
    update_shortcut "p" (some ["relscript"])
        (storeOf [⟨"q", ["a"]⟩, ⟨"p", ["/bin/old"]⟩]) =
      (save_shortcuts [⟨"q", ["a"]⟩, ⟨"p", ["relscript"]⟩]
        (storeOf [⟨"q", ["a"]⟩, ⟨"p", ["/bin/old"]⟩]), Except.ok ()) :=
  update_stores_raw_command "p" ["relscript"] [⟨"q", ["a"]⟩] []
    ⟨"p", ["/bin/old"]⟩ (storeOf [⟨"q", ["a"]⟩, ⟨"p", ["/bin/old"]⟩])
    rfl (by decide) rfl

/-- C6: Add postcondition: `add_shortcut` with an empty command always fails
with an `InvalidInput` error leaving the store untouched; with a non-empty
command it succeeds and saves the prior collection with exactly one new
shortcut appended at the end, even when a shortcut of the same name already
exists. -/
theorem add_postcondition (fs : FS) (name : String) (command : List String)
    (l : List Shortcut) (st : Store)
    (h1 : (load_shortcuts st).2 = some l) :
    (add_shortcut fs name [] st =
      (st, Except.error (IoErr.invalidInput "Command cannot be empty"))) ∧
    (command ≠ [] →
      add_shortcut fs name command st =
        (save_shortcuts (l ++ [⟨name, normalize_command fs command⟩])
          (load_shortcuts st).1, Except.ok ())) := by
  refine ⟨rfl, fun h => ?_⟩
  cases command with
  | nil => exact absurd rfl h
  | cons c cs => simp [add_shortcut, h1]

theorem add_postcondition_witness :
    add_shortcut emptyFS "p" ["echo", "hi"] (storeOf [⟨"p", ["old"]⟩]) =
      (save_shortcuts [⟨"p", ["old"]⟩, ⟨"p", ["echo", "hi"]⟩]
        (storeOf [⟨"p", ["old"]⟩]), Except.ok ()) :=
  (add_postcondition emptyFS "p" ["echo", "hi"] [⟨"p", ["old"]⟩]
    (storeOf [⟨"p", ["old"]⟩]) rfl).2 (by decide)

/-- C7: Remove semantics: `remove_shortcut` deletes every entry whose name
matches, preserving the relative order of the others; with zero matches it is
a success that does not re-save the store; the store is saved exactly when at
least one entry was removed. -/
theorem remove_semantics (name : String) (l : List Shortcut) (st : Store)
    (h1 : (load_shortcuts st).2 = some l) :
    ((∀ s ∈ l, s.project_name ≠ name) →
      remove_shortcut name st = ((load_shortcuts st).1, Except.ok ()) ∧
      (load_shortcuts st).1.saves = st.saves) ∧
    ((∃ s ∈ l, s.project_name = name) →
      remove_shortcut name st =
        (save_shortcuts (l.filter (fun s => s.project_name != name))
          (load_shortcuts st).1, Except.ok ()) ∧
      (save_shortcuts (l.filter (fun s => s.project_name != name))
        (load_shortcuts st).1).saves = st.saves + 1) ∧
    (∀ s ∈ l.filter (fun s => s.project_name != name),
      s.project_name ≠ name) ∧
    (l.filter (fun s => s.project_name != name)).Sublist l ∧
    (l.filter (fun s => s.project_name != name)).length +
      (l.filter (fun s => s.project_name == name)).length = l.length := by
  refine ⟨?_, ?_, ?_, List.filter_sublist l, ?_⟩
  · intro h
    have hfil : l.filter (fun s => s.project_name != name) = l :=
      List.filter_eq_self.mpr fun s hs => by
        simp only [bne_iff_ne, ne_eq]
        exact h s hs
    refine ⟨?_, load_shortcuts_saves st⟩
    simp [remove_shortcut, h1, hfil]
  · rintro ⟨s, hs, hname⟩
    have hne : (l.filter (fun s => s.project_name != name)).length ≠
        l.length := by
      intro hlen
      have heq := (List.filter_sublist l).eq_of_length hlen
      have hmem : s ∈ l.filter (fun s => s.project_name != name) := by
        rw [heq]
        exact hs
      have hb := (List.mem_filter.mp hmem).2
      simp [hname] at hb
    constructor
    · simp [remove_shortcut, h1, hne]
    · simp [save_shortcuts, load_shortcuts_saves]
  · intro s hs
    have hb := (List.mem_filter.mp hs).2
    simpa [bne_iff_ne] using hb
  · have h := length_filter_add_length_filter_not
      (fun s => s.project_name != name) l
    simpa [bne, Bool.not_not] using h

theorem remove_semantics_witness :
    remove_shortcut "a" (storeOf [⟨"a", ["x"]⟩, ⟨"b", ["y"]⟩, ⟨"a", ["z"]⟩]) =
      (save_shortcuts [⟨"b", ["y"]⟩]
        (storeOf [⟨"a", ["x"]⟩, ⟨"b", ["y"]⟩, ⟨"a", ["z"]⟩]),
       Except.ok ()) :=
  ((remove_semantics "a" [⟨"a", ["x"]⟩, ⟨"b", ["y"]⟩, ⟨"a", ["z"]⟩]
      (storeOf [⟨"a", ["x"]⟩, ⟨"b", ["y"]⟩, ⟨"a", ["z"]⟩]) rfl).2.1
    ⟨⟨"a", ["x"]⟩, by decide, rfl⟩).1

/-- C8: Reset then load yields empty: after a successful
`reset_shortcuts` (the file was deleted), the next `load_shortcuts` succeeds
with the empty collection and recreates the backing file as an empty JSON
array. -/
theorem reset_then_load_empty (st st' : Store)
    (h : reset_shortcuts st = (st', Except.ok ())) :
    (load_shortcuts st').2 = some [] ∧
    (load_shortcuts st').1.file = some (Json.arr []) := by
  cases hf : st.file with
  | none => simp [reset_shortcuts, hf] at h
  | some j =>
    simp only [reset_shortcuts, hf, Prod.mk.injEq] at h
    rw [← h.1]
    exact ⟨rfl, rfl⟩

theorem reset_then_load_empty_witness :
    (load_shortcuts ⟨none, 0⟩).2 = some [] ∧
    (load_shortcuts ⟨none, 0⟩).1.file = some (Json.arr []) :=
  reset_then_load_empty (storeOf []) ⟨none, 0⟩ rfl

/-- C9: For every name-resolving operation (run, open-folder, open-file,
git-push, update), when no shortcut with the given name exists the operation
returns `Ok`, spawns nothing, and leaves the stored collection unchanged; the
not-found condition is only display text. -/
theorem not_found_returns_ok (fs : FS) (os : OS) (name commit : String)
    (extra : List String) (nc : Option (List String))
    (l : List Shortcut) (st : Store)
    (h1 : (load_shortcuts st).2 = some l)
    (h2 : ∀ s ∈ l, s.project_name ≠ name) :
    run_shortcut name extra st = ((load_shortcuts st).1, [], Except.ok ()) ∧
    open_project_folder fs os name st =
      ((load_shortcuts st).1, [], Except.ok ()) ∧
    open_file_from_shortcut fs os name st =
      ((load_shortcuts st).1, [], Except.ok ()) ∧
    git_push fs name commit st =
      ((load_shortcuts st).1, none, [], Except.ok ()) ∧
    update_shortcut name nc st = ((load_shortcuts st).1, Except.ok ()) ∧
    (load_shortcuts ((load_shortcuts st).1)).2 = some l := by
  have hf := find?_name_eq_none h2
  refine ⟨?_, ?_, ?_, ?_, ?_, ?_⟩
  · simp [run_shortcut, h1, hf]
  · simp [open_project_folder, h1, hf]
  · simp [open_file_from_shortcut, h1, hf]
  · simp [git_push, h1, hf]
  · simp [update_shortcut, h1, hf]
  · rw [load_shortcuts_idem]
    exact h1

theorem not_found_returns_ok_witness :
    run_shortcut "b" [] (storeOf [⟨"a", ["x"]⟩]) =
      (storeOf [⟨"a", ["x"]⟩], [], Except.ok ()) ∧
    update_shortcut "b" (some ["y"]) (storeOf [⟨"a", ["x"]⟩]) =
      (storeOf [⟨"a", ["x"]⟩], Except.ok ()) ∧
    git_push emptyFS "b" "m" (storeOf [⟨"a", ["x"]⟩]) =
      (storeOf [⟨"a", ["x"]⟩], none, [], Except.ok ()) :=
  let h := not_found_returns_ok emptyFS OS.linux "b" "m" [] (some ["y"])
    [⟨"a", ["x"]⟩] (storeOf [⟨"a", ["x"]⟩]) rfl (by decide)
  ⟨h.1, h.2.2.2.2.1, h.2.2.2.1⟩

/-- C10 counterexample: the claim's universal clause fails: `"foo/bar"` is a
non-empty relative first token that is not an existing directory, yet its
parent is `"foo"`, not the empty path, and open-folder proceeds with `"foo"`
as the directory, not with the empty string. -/
theorem dir_resolution_counterexample :
    ("foo/bar" : String) ≠ "" ∧
    isAbsolutePath "foo/bar" = false ∧
    emptyFS.is_dir "foo/bar" = false ∧
    pathParent "foo/bar" = some "foo" ∧
    ¬ pathParent "foo/bar" = some "" ∧
    open_project_folder emptyFS OS.linux "p" (storeOf [⟨"p", ["foo/bar"]⟩]) =
      (storeOf [⟨"p", ["foo/bar"]⟩], [⟨"xdg-open", ["foo"]⟩],
       Except.ok ()) :=
  ⟨by decide, rfl, rfl, rfl, by decide, rfl⟩

theorem set_current_dir_cases (fs : FS) (dir : String) :
    set_current_dir fs dir = Except.ok () ∨
    set_current_dir fs dir =
      Except.error (IoErr.notFound "set_current_dir") := by
  unfold set_current_dir
  split_ifs <;> simp

/-- C10 amended: in open-folder and git-push directory resolution, given the
first token is not an existing directory, the "Unable to determine directory
from run command" NotFound error is taken exactly when the token's path
components are empty (the empty path) or consist only of the root; a
relative first token with a single normal component (such as `npm`) has the
empty path as parent, so open-folder proceeds with the empty-string
directory, while git-push proceeds to `set_current_dir("")`, which always
fails, so git-push returns that error with no git command spawned; other
tokens proceed with their non-empty parent. -/
theorem dir_resolution_amended (fs : FS) (name commit first : String)
    (rest : List String) :
    (fs.is_dir first = false →
      (((git_push fs name commit (storeOf [⟨name, first :: rest⟩])).2.2.2 =
          Except.error (IoErr.notFound
            "Unable to determine directory from run command")) ↔
        (pathComponents first = [] ∨
          pathComponents first = [PathComponent.rootDir]))) ∧
    (fs.is_dir first = false →
      (((open_project_folder fs OS.linux name
            (storeOf [⟨name, first :: rest⟩])).2.2 =
          Except.error (IoErr.notFound
            "Unable to determine directory from run command")) ↔
        (pathComponents first = [] ∨
          pathComponents first = [PathComponent.rootDir]))) ∧
    (∀ t, fs.is_dir first = false →
      pathComponents first = [PathComponent.normal t] →
      git_push fs name commit (storeOf [⟨name, first :: rest⟩]) =
        (storeOf [⟨name, first :: rest⟩], none, [],
         Except.error (IoErr.notFound "set_current_dir")) ∧
      open_project_folder fs OS.linux name (storeOf [⟨name, first :: rest⟩]) =
        (storeOf [⟨name, first :: rest⟩], [⟨"xdg-open", [""]⟩],
         Except.ok ())) := by
  have hload := load_storeOf [⟨name, first :: rest⟩]
  have hfind : ([(⟨name, first :: rest⟩ : Shortcut)] : List Shortcut).find?
      (fun s => s.project_name == name) = some ⟨name, first :: rest⟩ :=
    List.find?_cons_of_pos _ (by simp)
  refine ⟨?_, ?_, ?_⟩
  · intro hdir
    rw [← pathParent_eq_none_iff]
    cases hp : pathParent first with
    | none => simp [git_push, hload, hfind, hdir, hp]
    | some q =>
      rcases set_current_dir_cases fs q with hc | hc <;>
        simp [git_push, hload, hfind, hdir, hp, hc]
  · intro hdir
    rw [← pathParent_eq_none_iff]
    cases hp : pathParent first with
    | none => simp [open_project_folder, hload, hfind, hdir, hp, open_command]
    | some q => simp [open_project_folder, hload, hfind, hdir, hp,
        open_command]
  · intro t hdir hcomp
    have hp := pathParent_single_normal hcomp
    constructor
    · simp [git_push, hload, hfind, hdir, hp, set_current_dir]
    · simp [open_project_folder, hload, hfind, hdir, hp, open_command]

theorem dir_resolution_amended_witness :
    git_push emptyFS "p" "msg" (storeOf [⟨"p", ["npm"]⟩]) =
      (storeOf [⟨"p", ["npm"]⟩], none, [],
       Except.error (IoErr.notFound "set_current_dir")) ∧
    open_project_folder emptyFS OS.linux "p" (storeOf [⟨"p", ["npm"]⟩]) =
      (storeOf [⟨"p", ["npm"]⟩], [⟨"xdg-open", [""]⟩], Except.ok ()) :=
  (dir_resolution_amended emptyFS "p" "msg" "npm" []).2.2 "npm" rfl rfl
